import Mathlib

/-
  Verification of the branch reconciliation engine of the create-pull-request
  action, against a shallow embedding of the Python sources.

  The embedded code:
  - src/dist/src/create_or_update_branch.py : the reconciliation engine
    (create_or_update_branch, fetch_successful, is_ahead, is_behind, is_even,
    has_diff, CHERRYPICK_EMPTY);
  - src/dist/cpr/create_pull_request.py : the orchestrator gating
    (push / delete / PR-client flow after reconciliation) and the identity
    resolver (set_committer_author, git_user_config_is_set);
  - src/dist/src/common.py : parse_display_name_email;
  - dist/cpr/common.py (absent from src/, modelled from the spec):
    parse_github_repository.

  The version-control layer the Python shells out to (GitPython over the git
  executable) is external to the repository; it is modelled here by a concrete
  state machine over named branches holding linear commit histories, with the
  behaviour of exactly the commands the engine issues: checkout -b fails when
  the branch exists, fetch of a missing or unreachable ref raises, git diff
  compares the content trees of the two tips, rev-list counts set differences
  of reachable commits, cherry-pick applies a three-way content merge taking
  the picked change on conflict and raises the empty-cherry-pick error when
  the result matches HEAD, and branch -D refuses to delete the checked-out
  branch.  Failure injection (broken refs for fetch, injected cherry-pick
  failures) stands in for network, auth and merge failures of the external
  tool.
-/

deriving instance DecidableEq for Except

namespace CPR

/-- A content tree: an association list from file name to file content. -/
abbrev Tree := List (String × String)

/-- Look a file up in a tree (first binding wins, as in an association list). -/
def Tree.find (t : Tree) (f : String) : Option String :=
  (t.find? (fun p => p.1 == f)).map (fun p => p.2)

/-- The key set of a tree (with duplicates, harmless for lookups). -/
def Tree.keys (t : Tree) : List String := t.map (fun p => p.1)

/-- Content equality of two trees: the same lookup result on every key of
either tree.  This is what an empty git diff between two commits means. -/
def Tree.equiv (t1 t2 : Tree) : Bool :=
  (Tree.keys t1 ++ Tree.keys t2).all (fun f => Tree.find t1 f == Tree.find t2 f)

/-- A commit: identity, message, its content tree and the content tree of its
parent (so that the change a commit carries is the difference between the
two, which is what cherry-pick replays). -/
structure Commit where
  cid : Nat
  msg : String
  tree : Tree
  parentTree : Tree
deriving DecidableEq, Repr

/-- A branch history, most recent commit first. -/
abbrev History := List Commit

/-- The content tree at the tip of a history (empty tree for an empty history). -/
def tipTree (h : History) : Tree :=
  match h with
  | [] => []
  | c :: _ => c.tree

/-- Boolean membership of a commit in a history. -/
def histMem (c : Commit) (h : History) : Bool :=
  h.any (fun x => decide (x = c))

/-- Number of commits reachable from h2 but not from h1: the right-only
rev-list count of h1...h2. -/
def aheadCount (h1 h2 : History) : Nat :=
  (h2.filter (fun c => !histMem c h1)).length

/-- Number of commits reachable from h1 but not from h2: the left-only
rev-list count of h1...h2. -/
def behindCount (h1 h2 : History) : Nat :=
  (h1.filter (fun c => !histMem c h2)).length

/-- The result of the three-way merge a cherry-pick of a commit with parent
tree p and tree tgt performs onto a tree hd, with conflicts resolved in
favour of the picked commit (strategy option theirs): every file the commit
changed takes the value of the commit, every other file keeps the value of
hd. -/
def mergeTheirs (hd p tgt : Tree) : Tree :=
  (Tree.keys hd ++ Tree.keys p ++ Tree.keys tgt).filterMap (fun f =>
    (if Tree.find tgt f == Tree.find p f then Tree.find hd f else Tree.find tgt f).map
      (fun v => (f, v)))

/-- A recorded cherry-pick invocation: the strategy arguments passed and the
commit picked. -/
structure PickCall where
  strategy : String
  strategyOption : String
  cid : Nat
deriving DecidableEq, Repr

/-- An error raised by a git command (GitCommandError), carrying stderr. -/
structure GitError where
  stderr : String
deriving DecidableEq, Repr

/-- The state of the local repository, of the remote it talks to, and of the
instrumentation used by the proofs:
  locals    named local branches;
  remote    branches of the remote repository;
  tracking  the remote-tracking refs (refs/remotes/origin/NAME);
  broken    refs whose fetch fails for an external reason (network, auth);
  pickErr   injected cherry-pick failures of the external tool, by commit id;
  head      the branch HEAD symbolically resolves to;
  worktree  the content of the working tree;
  nextId    fresh commit id source;
  picks     every cherry-pick invocation issued, in order;
  pushes    every force-push of HEAD to a remote branch, in order;
  deletes   every force-delete of a remote branch, in order. -/
structure GitState where
  locals : List (String × History)
  remote : List (String × History)
  tracking : List (String × History)
  broken : List String
  pickErr : List (Nat × String)
  head : String
  worktree : Tree
  nextId : Nat
  picks : List PickCall
  pushes : List String
  deletes : List String
deriving DecidableEq, Repr

/-- Look up a branch by name. -/
def lookupBranch (l : List (String × History)) (n : String) : Option History :=
  (l.find? (fun p => p.1 == n)).map (fun p => p.2)

/-- Remove a branch binding. -/
def removeBranch (l : List (String × History)) (n : String) :
    List (String × History) :=
  l.filter (fun p => !(p.1 == n))

/-- Set a branch to a history.  Only lookups observe the branch map, so the
binding is kept in front. -/
def setBranch (l : List (String × History)) (n : String) (h : History) :
    List (String × History) :=
  (n, h) :: removeBranch l n

/-- Resolve a revision name the way the engine uses them: names of the form
origin/NAME are remote-tracking refs, every other name is a local branch. -/
def resolveRef (st : GitState) (s : String) : Option History :=
  if "origin/".toList.isPrefixOf s.toList then
    lookupBranch st.tracking (String.mk (s.toList.drop 7))
  else
    lookupBranch st.locals s

/-- The effect monad of the embedding: a git command transforms the state and
either returns a value or raises a GitCommandError; the state is kept on
failure (a raised exception does not roll the repository back). -/
def GitM (α : Type) : Type := GitState → Except GitError α × GitState

instance : Monad GitM where
  pure a := fun st => (Except.ok a, st)
  bind x f := fun st =>
    match x st with
    | (Except.ok a, st') => f a st'
    | (Except.error e, st') => (Except.error e, st')

/-- repo.git.symbolic_ref HEAD --short : the branch HEAD points at. -/
def symbolicRefHead : GitM String := fun st => (Except.ok st.head, st)

/-- repo.git.checkout HEAD -b NAME : create NAME at the current HEAD and
switch to it; fails when a branch of that name already exists.  The working
tree is carried over unchanged. -/
def checkoutNewBranch (name : String) : GitM Unit := fun st =>
  if (lookupBranch st.locals name).isSome then
    (Except.error ⟨"fatal: a branch named " ++ name ++ " already exists"⟩, st)
  else
    (Except.ok (),
     { st with locals := setBranch st.locals name ((lookupBranch st.locals st.head).getD []),
               head := name })

/-- repo.is_dirty(untracked_files=True) : the working tree differs in content
from the tip of the checked-out branch. -/
def isDirty : GitM Bool := fun st =>
  (Except.ok (!Tree.equiv st.worktree (tipTree ((lookupBranch st.locals st.head).getD []))), st)

/-- repo.git.add -A followed by repo.git.commit -m MSG : one commit capturing
the whole working tree on the checked-out branch. -/
def commitAll (msg : String) : GitM Unit := fun st =>
  let h := (lookupBranch st.locals st.head).getD []
  (Except.ok (),
   { st with locals := setBranch st.locals st.head (⟨st.nextId, msg, st.worktree, tipTree h⟩ :: h),
             nextId := st.nextId + 1 })

/-- repo.git.fetch --force URL NAME:NAME : move the local branch NAME to the
remote tip; raises when the ref is unreachable or absent on the remote. -/
def fetchForceBranch (name : String) : GitM Unit := fun st =>
  if st.broken.contains name then
    (Except.error ⟨"fatal: unable to access the remote repository"⟩, st)
  else
    match lookupBranch st.remote name with
    | none => (Except.error ⟨"fatal: could not find remote ref " ++ name⟩, st)
    | some h => (Except.ok (), { st with locals := setBranch st.locals name h })

/-- repo.git.fetch URL NAME:refs/remotes/origin/NAME : update the tracking
ref; raises when the ref is unreachable or absent on the remote. -/
def fetchTrackingBranch (name : String) : GitM Unit := fun st =>
  if st.broken.contains name then
    (Except.error ⟨"fatal: unable to access the remote repository"⟩, st)
  else
    match lookupBranch st.remote name with
    | none => (Except.error ⟨"fatal: could not find remote ref " ++ name⟩, st)
    | some h => (Except.ok (), { st with tracking := setBranch st.tracking name h })

/-- repo.git.checkout NAME : switch to an existing branch; when no local
branch of that name exists but a tracking ref origin/NAME does, git creates
the local branch from it (the dwim of checkout). -/
def checkoutExisting (name : String) : GitM Unit := fun st =>
  match lookupBranch st.locals name with
  | some h => (Except.ok (), { st with head := name, worktree := tipTree h })
  | none =>
    match lookupBranch st.tracking name with
    | some h =>
      (Except.ok (),
       { st with locals := setBranch st.locals name h, head := name, worktree := tipTree h })
    | none => (Except.error ⟨"error: pathspec " ++ name ++ " did not match any file"⟩, st)

/-- repo.git.checkout -B NAME TARGET : force-create NAME at TARGET and switch
to it; TARGET is HEAD or a revision name. -/
def checkoutB (name target : String) : GitM Unit := fun st =>
  let tgt := if target == "HEAD" then lookupBranch st.locals st.head else resolveRef st target
  match tgt with
  | none => (Except.error ⟨"fatal: invalid reference " ++ target⟩, st)
  | some h =>
    (Except.ok (),
     { st with locals := setBranch st.locals name h, head := name, worktree := tipTree h })

/-- repo.git.rev_list --reverse B1..B2 . : the commits reachable from B2 and
not from B1, oldest first (the engine always restricts to the path dot, the
repository root). -/
def revListReverse (b1 b2 : String) : GitM (List Commit) := fun st =>
  match resolveRef st b1, resolveRef st b2 with
  | some h1, some h2 => (Except.ok ((h2.filter (fun c => !histMem c h1)).reverse), st)
  | _, _ => (Except.error ⟨"fatal: bad revision range"⟩, st)

/-- int(repo.git.rev_list --right-only --count B1...B2) . -/
def revListCountRight (b1 b2 : String) : GitM Nat := fun st =>
  match resolveRef st b1, resolveRef st b2 with
  | some h1, some h2 => (Except.ok (aheadCount h1 h2), st)
  | _, _ => (Except.error ⟨"fatal: bad revision range"⟩, st)

/-- int(repo.git.rev_list --left-only --count B1...B2) . -/
def revListCountLeft (b1 b2 : String) : GitM Nat := fun st =>
  match resolveRef st b1, resolveRef st b2 with
  | some h1, some h2 => (Except.ok (behindCount h1 h2), st)
  | _, _ => (Except.error ⟨"fatal: bad revision range"⟩, st)

/-- The length of repo.git.diff B1..B2 is positive exactly when the content
trees of the two tips differ. -/
def diffNonEmpty (b1 b2 : String) : GitM Bool := fun st =>
  match resolveRef st b1, resolveRef st b2 with
  | some h1, some h2 => (Except.ok (!Tree.equiv (tipTree h1) (tipTree h2)), st)
  | _, _ => (Except.error ⟨"fatal: bad revision range"⟩, st)

/-- The stderr signal of an empty cherry-pick, the constant CHERRYPICK_EMPTY
of create_or_update_branch.py. -/
def CHERRYPICK_EMPTY : String :=
  "The previous cherry-pick is now empty, possibly due to conflict resolution."

/-- repo.git.cherry_pick --strategy S --strategy-option O COMMIT : replay the
change of the commit onto HEAD.  The invocation is recorded.  An injected
failure of the external tool raises with its stderr; a pick whose merge
result does not change HEAD raises the empty-cherry-pick error; otherwise a
new commit with the merged tree is added to the checked-out branch. -/
def cherryPickCmd (strategy strategyOption : String) (c : Commit) : GitM Unit := fun st =>
  let st := { st with picks := st.picks ++ [⟨strategy, strategyOption, c.cid⟩] }
  match (st.pickErr.find? (fun p => p.1 == c.cid)).map (fun p => p.2) with
  | some msg => (Except.error ⟨msg⟩, st)
  | none =>
    let h := (lookupBranch st.locals st.head).getD []
    let merged := mergeTheirs (tipTree h) c.parentTree c.tree
    if Tree.equiv merged (tipTree h) then
      (Except.error ⟨"error: " ++ CHERRYPICK_EMPTY ++ " Use git cherry-pick --skip"⟩, st)
    else
      (Except.ok (),
       { st with locals := setBranch st.locals st.head (⟨st.nextId, c.msg, merged, tipTree h⟩ :: h),
                 worktree := merged,
                 nextId := st.nextId + 1 })

/-- repo.git.branch --delete --force NAME : git refuses to delete the
checked-out branch, and fails when the branch does not exist. -/
def branchDeleteForce (name : String) : GitM Unit := fun st =>
  if st.head == name then
    (Except.error ⟨"error: cannot delete the checked out branch " ++ name⟩, st)
  else
    match lookupBranch st.locals name with
    | none => (Except.error ⟨"error: branch " ++ name ++ " not found"⟩, st)
    | some _ => (Except.ok (), { st with locals := removeBranch st.locals name })

/-- repo.git.push --force URL HEAD:refs/heads/NAME (issued by the
orchestrator): move the remote branch to the local HEAD. -/
def pushForceHead (name : String) : GitM Unit := fun st =>
  (Except.ok (),
   { st with remote := setBranch st.remote name ((lookupBranch st.locals st.head).getD []),
             pushes := st.pushes ++ [name] })

/-- repo.git.push --delete --force URL refs/heads/NAME (issued by the
orchestrator): delete the remote branch. -/
def pushDeleteRemote (name : String) : GitM Unit := fun st =>
  (Except.ok (),
   { st with remote := removeBranch st.remote name,
             deletes := st.deletes ++ [name] })

/-- Boolean substring test, used for the Python expression
CHERRYPICK_EMPTY in e.stderr. -/
def listHasSub (needle : List Char) : List Char → Bool
  | [] => needle.isEmpty
  | c :: rest => needle.isPrefixOf (c :: rest) || listHasSub needle rest

/-- needle in hay, on strings. -/
def strHasSub (needle hay : String) : Bool :=
  listHasSub needle.toList hay.toList

/-- fetch_successful of create_or_update_branch.py: try to fetch the branch
into its tracking ref; every GitCommandError is caught and turned into
False. -/
def fetch_successful (branch : String) : GitM Bool := fun st =>
  match fetchTrackingBranch branch st with
  | (Except.error _, st') => (Except.ok false, st')
  | (Except.ok _, st') => (Except.ok true, st')

/-- is_ahead of create_or_update_branch.py: branch_2 is ahead of branch_1
when the right-only rev-list count of branch_1...branch_2 is positive. -/
def is_ahead (branch_1 branch_2 : String) : GitM Bool := do
  let n ← revListCountRight branch_1 branch_2
  pure (decide (0 < n))

/-- is_behind of create_or_update_branch.py: branch_2 is behind branch_1
when the left-only rev-list count of branch_1...branch_2 is positive. -/
def is_behind (branch_1 branch_2 : String) : GitM Bool := do
  let n ← revListCountLeft branch_1 branch_2
  pure (decide (0 < n))

/-- is_even of create_or_update_branch.py: not ahead and not behind, with the
short-circuit evaluation of the Python conjunction. -/
def is_even (branch_1 branch_2 : String) : GitM Bool := do
  let a ← is_ahead branch_1 branch_2
  if a then
    pure false
  else do
    let b ← is_behind branch_1 branch_2
    pure (!b)

/-- has_diff of create_or_update_branch.py: the diff branch_1..branch_2 is
non-empty. -/
def has_diff (branch_1 branch_2 : String) : GitM Bool :=
  diffNonEmpty branch_1 branch_2

/-- The cherry-pick loop of create_or_update_branch, lines 82-94: each commit
is picked with strategy recursive and strategy option theirs; a failure whose
stderr contains CHERRYPICK_EMPTY is absorbed and the loop continues, any
other failure is re-raised. -/
def cherryPickCommits : List Commit → GitM Unit
  | [] => pure ()
  | c :: rest => fun st =>
    match cherryPickCmd "recursive" "theirs" c st with
    | (Except.error e, st') =>
      if strHasSub CHERRYPICK_EMPTY e.stderr then cherryPickCommits rest st'
      else (Except.error e, st')
    | (Except.ok _, st') => cherryPickCommits rest st'

/-- The rebase step of create_or_update_branch, lines 73-98, taken when the
working base is not the base: fetch and check out the base, cherry-pick the
commits of working_base..temp_branch in reverse order, reset the temp branch
to the result and restore the base from the remote. -/
def coubRebase (working_base base temp_branch : String) : GitM Unit := do
  fetchForceBranch base
  checkoutExisting base
  let commits ← revListReverse working_base temp_branch
  cherryPickCommits commits
  checkoutB temp_branch "HEAD"
  fetchForceBranch base

/-- The result dictionary returned by create_or_update_branch. -/
structure CoubResult where
  action : String
  diff : Bool
  base : String
deriving DecidableEq, Repr

/-- Lines 100-147 of create_or_update_branch: reconcile with the remote
target branch and clean up.  When the fetch of the pull request branch fails
the branch is created at HEAD and the action is created exactly when it is
ahead of the base; when the fetch succeeds the branch is checked out, reset
to the temp branch if their diff is non-empty, the action is updated exactly
when the branch is not even with origin/branch, and the diff flag is whether
the branch is ahead of the base.  The temporary branch is deleted before
returning. -/
def coubFinish (base branch temp_branch : String) : GitM CoubResult := do
  let fetched ← fetch_successful branch
  if !fetched then do
    checkoutNewBranch branch
    let diff ← is_ahead base branch
    let action := if diff then "created" else "none"
    branchDeleteForce temp_branch
    pure ⟨action, diff, base⟩
  else do
    checkoutExisting branch
    let hd ← has_diff branch temp_branch
    if hd then checkoutB branch temp_branch
    let ev ← is_even ("origin/" ++ branch) branch
    let action := if !ev then "updated" else "none"
    let diff ← is_ahead base branch
    branchDeleteForce temp_branch
    pure ⟨action, diff, base⟩

/-- create_or_update_branch of create_or_update_branch.py.  The Python draws
the name of the temporary branch from get_random_string(length=20); here the
caller passes that name.  The steps, in source order: resolve the working
base from HEAD, default the base to it, save the working base state to the
temporary branch (committing a dirty tree), force-fetch the working base
back to its remote state, rebase the temporary branch onto the base when the
two differ, then reconcile with the remote target branch and clean up. -/
def create_or_update_branch (commit_message : String) (base? : Option String)
    (branch temp_branch : String) : GitM CoubResult := do
  let working_base ← symbolicRefHead
  let base := base?.getD working_base
  checkoutNewBranch temp_branch
  let dirty ← isDirty
  if dirty then commitAll commit_message
  fetchForceBranch working_base
  if working_base != base then coubRebase working_base base temp_branch
  coubFinish base branch temp_branch

/-- What the orchestrator run ends as: early exit with status 0 after
deleting the no-diff branch, handing over to the external PR client, or the
no-op fall-through (also exit status 0). -/
inductive MainOutcome where
  | deletedNoDiff
  | openedPr
  | noop
deriving DecidableEq, Repr

/-- Lines 193-228 of dist/cpr/create_pull_request.py, after the
reconciliation call: when the action is created or updated, force-push HEAD
to refs/heads/branch; when additionally the diff flag is false, force-delete
the remote branch and terminate with exit status 0 without invoking the PR
client; otherwise invoke the external PR client.  When the action is none,
nothing happens. -/
def orchestrate (result : CoubResult) (branch : String) : GitM MainOutcome :=
  if ["created", "updated"].contains result.action then do
    pushForceHead branch
    if !result.diff then do
      pushDeleteRemote branch
      pure MainOutcome.deletedNoDiff
    else
      pure MainOutcome.openedPr
  else
    pure MainOutcome.noop

/-- The whitespace characters the default str.strip of Python removes. -/
def isPyWs (c : Char) : Bool :=
  c == ' ' || c == '\t' || c == '\n' || c == '\r' || c == '\x0b' || c == '\x0c'

/-- str.strip on a character list: drop whitespace from both ends. -/
def stripChars (l : List Char) : List Char :=
  ((l.dropWhile isPyWs).reverse.dropWhile isPyWs).reverse

/-- Split a character list at the first occurrence of a character: the part
before it and the part after it, or none when the character is absent. -/
def splitAtFirst (c : Char) : List Char → Option (List Char × List Char)
  | [] => none
  | x :: xs =>
    if x == c then some ([], xs)
    else (splitAtFirst c xs).map (fun p => (x :: p.1, p.2))

/-- parse_display_name_email of common.py.  The Python matches the anchored
pattern group-one of one or more non-angle characters, optional whitespace, a
literal opening angle bracket, group-two of one or more characters other than
the closing angle bracket, and a final closing angle bracket: so group one is
everything before the first opening angle bracket (non-empty), the final
character must close the bracket, and no other closing bracket may follow the
opening one.  Both groups are stripped and must be non-empty, else the
ValueError of the source is raised. -/
def parse_display_name_email (s : String) : Except String (String × String) :=
  let err : Except String (String × String) :=
    Except.error ("The format of " ++ s ++ " is not a valid email address with display name")
  match splitAtFirst '<' s.toList with
  | none => err
  | some (g1, rest) =>
    if g1.isEmpty then err
    else
      match rest.getLast? with
      | none => err
      | some last =>
        let g2 := rest.dropLast
        if last == '>' && !g2.isEmpty && !g2.contains '>' then
          let name := stripChars g1
          let email := stripChars g2
          if name.isEmpty || email.isEmpty then err
          else Except.ok (String.mk name, String.mk email)
        else err

/-- DEFAULT_COMMITTER of dist/cpr/create_pull_request.py. -/
def DEFAULT_COMMITTER : String := "GitHub <noreply@github.com>"

/-- DEFAULT_AUTHOR of dist/cpr/create_pull_request.py. -/
def DEFAULT_AUTHOR : String :=
  "github-actions[bot] <41898282+github-actions[bot]@users.noreply.github.com>"

/-- A git configuration: key-value pairs, as read by git config --get. -/
abbrev GitConfig := List (String × String)

/-- get_git_config_value of dist/cpr/create_pull_request.py: the value, or
None when git config --get fails. -/
def get_git_config_value (cfg : GitConfig) (name : String) : Option String :=
  (cfg.find? (fun p => p.1 == name)).map (fun p => p.2)

/-- git_user_config_is_set of dist/cpr/create_pull_request.py: user.name and
user.email are both set, or all four of committer.name, committer.email,
author.name, author.email are. -/
def git_user_config_is_set (cfg : GitConfig) : Bool :=
  ((get_git_config_value cfg "user.name").isSome
    && (get_git_config_value cfg "user.email").isSome)
  || ((get_git_config_value cfg "committer.name").isSome
    && (get_git_config_value cfg "committer.email").isSome
    && (get_git_config_value cfg "author.name").isSome
    && (get_git_config_value cfg "author.email").isSome)

/-- What set_committer_author did: kept the existing repository
configuration, or injected the four authorship environment variables. -/
inductive IdentityResult where
  | keptExisting
  | setEnv (committerName committerEmail authorName authorEmail : String)
deriving DecidableEq, Repr

/-- set_committer_author of dist/cpr/create_pull_request.py: cross-use the
one supplied string for both roles, keep a complete existing configuration
when neither is supplied, fall back to the defaults otherwise, and parse the
resulting strings into the four environment values (a parse failure is the
ValueError of the source). -/
def set_committer_author (cfg : GitConfig) (committer author : Option String) :
    Except String IdentityResult :=
  let committer := if committer.isNone && author.isSome then author else committer
  let author := if author.isNone && committer.isSome then committer else author
  if committer.isNone && author.isNone then
    if git_user_config_is_set cfg then
      Except.ok IdentityResult.keptExisting
    else
      match parse_display_name_email DEFAULT_COMMITTER,
            parse_display_name_email DEFAULT_AUTHOR with
      | Except.ok (cn, ce), Except.ok (an, ae) =>
        Except.ok (IdentityResult.setEnv cn ce an ae)
      | Except.error e, _ => Except.error e
      | _, Except.error e => Except.error e
  else
    match parse_display_name_email (committer.getD ""),
          parse_display_name_email (author.getD "") with
    | Except.ok (cn, ce), Except.ok (an, ae) =>
      Except.ok (IdentityResult.setEnv cn ce an ae)
    | Except.error e, _ => Except.error e
    | _, Except.error e => Except.error e

/-- A root commit used by the concrete states below. -/
def cInit : Commit := ⟨0, "init", [], []⟩

/-- A concrete repository: one local branch master holding the root commit,
the same branch on the remote, a dirty working tree. -/
def stBase : GitState :=
  { locals := [("master", [cInit])], remote := [("master", [cInit])], tracking := [],
    broken := [], pickErr := [], head := "master", worktree := [("f", "x")],
    nextId := 1, picks := [], pushes := [], deletes := [] }

/-- stBase with the pull request branch also present on the remote. -/
def W1S : GitState := { stBase with remote := [("master", [cInit]), ("pr", [cInit])] }

/-- W1S with the fetch of the pull request branch failing for an external
reason although the branch exists on the remote. -/
def W10S : GitState :=
  { stBase with remote := [("master", [cInit]), ("pr", [cInit])], broken := ["pr"] }

/-- A state for exercising single cherry-picks, with one injected cherry-pick
failure for commit id 9. -/
def SPa : GitState :=
  { stBase with locals := [("b", [cInit])], head := "b", worktree := [],
                pickErr := [(9, "error: could not apply the commit")], nextId := 20 }

/-- A commit whose cherry-pick succeeds on SPa. -/
def cGood : Commit := ⟨7, "m", [("f", "one")], []⟩

/-- A commit whose cherry-pick is empty on SPa. -/
def cNil : Commit := ⟨8, "m", [], []⟩

/-- The commit whose cherry-pick fails with the injected non-empty error. -/
def cBad : Commit := ⟨9, "m", [("g", "two")], []⟩

theorem bind_apply {α β : Type} (x : GitM α) (f : α → GitM β) (st : GitState) :
    (x >>= f) st =
      match x st with
      | (Except.ok a, st') => f a st'
      | (Except.error e, st') => (Except.error e, st') := rfl

theorem pure_apply {α : Type} (a : α) (st : GitState) :
    (pure a : GitM α) st = (Except.ok a, st) := rfl

theorem lookupBranch_cons (p : String × History) (l : List (String × History)) (m : String) :
    lookupBranch (p :: l) m = if p.1 == m then some p.2 else lookupBranch l m := by
  cases hb : (p.1 == m) with
  | true => simp [lookupBranch, List.find?_cons_of_pos, hb]
  | false =>
    rw [lookupBranch, List.find?_cons_of_neg _ (by simp [hb])]
    simp [lookupBranch, hb]

theorem removeBranch_cons (p : String × History) (l : List (String × History)) (n : String) :
    removeBranch (p :: l) n =
      if p.1 == n then removeBranch l n else p :: removeBranch l n := by
  cases hb : (p.1 == n) with
  | true => simp [removeBranch, List.filter_cons, hb]
  | false => simp [removeBranch, List.filter_cons, hb]

theorem lookupBranch_setBranch_self (l : List (String × History)) (n : String) (h : History) :
    lookupBranch (setBranch l n h) n = some h := by
  rw [setBranch, lookupBranch_cons]
  simp

theorem lookupBranch_removeBranch_ne (l : List (String × History)) (n m : String)
    (hne : m ≠ n) : lookupBranch (removeBranch l n) m = lookupBranch l m := by
  induction l with
  | nil => rfl
  | cons p l ih =>
    rw [removeBranch_cons]
    cases hb : (p.1 == n) with
    | true =>
      have hm : (p.1 == m) = false := by
        have : p.1 = n := by simpa using hb
        simp [this, Ne.symm hne]
      rw [if_pos rfl, ih, lookupBranch_cons, hm]
      simp
    | false =>
      rw [if_neg (by simp), lookupBranch_cons, lookupBranch_cons, ih]

theorem lookupBranch_setBranch_ne (l : List (String × History)) (n m : String) (h : History)
    (hne : m ≠ n) : lookupBranch (setBranch l n h) m = lookupBranch l m := by
  rw [setBranch, lookupBranch_cons]
  have hb : (n == m) = false := by simp [Ne.symm hne]
  rw [hb]
  simp only [Bool.false_eq_true, if_false]
  exact lookupBranch_removeBranch_ne l n m hne

theorem lookupBranch_removeBranch_self (l : List (String × History)) (n : String) :
    lookupBranch (removeBranch l n) n = none := by
  induction l with
  | nil => rfl
  | cons p l ih =>
    rw [removeBranch_cons]
    cases hb : (p.1 == n) with
    | true => simpa using ih
    | false =>
      rw [if_neg (by simp), lookupBranch_cons, hb]
      simpa using ih

theorem removeBranch_setBranch_self (l : List (String × History)) (n : String) (h : History) :
    removeBranch (setBranch l n h) n = removeBranch l n := by
  simp [setBranch, removeBranch, List.filter_filter]

theorem setBranch_setBranch_self (l : List (String × History)) (n : String) (h1 h2 : History) :
    setBranch (setBranch l n h1) n h2 = setBranch l n h2 := by
  show (n, h2) :: removeBranch (setBranch l n h1) n = (n, h2) :: removeBranch l n
  rw [removeBranch_setBranch_self]

theorem isPrefixOf_append_self (l m : List Char) : l.isPrefixOf (l ++ m) = true := by
  induction l with
  | nil => simp [List.isPrefixOf]
  | cons a l ih => simp [List.isPrefixOf, ih]

theorem string_mk_data (s : String) : String.mk s.data = s := rfl

theorem resolveRef_origin (st : GitState) (b : String) :
    resolveRef st ("origin/" ++ b) = lookupBranch st.tracking b := by
  have hdata : ("origin/" ++ b).toList = "origin/".toList ++ b.toList :=
    String.data_append "origin/" b
  have hlen : ("origin/".toList).length = 7 := rfl
  rw [resolveRef, hdata, isPrefixOf_append_self]
  simp only [if_true]
  rw [← hlen, List.drop_left]
  rfl

theorem resolveRef_local (st : GitState) (s : String)
    (h : "origin/".toList.isPrefixOf s.toList = false) :
    resolveRef st s = lookupBranch st.locals s := by
  rw [resolveRef, h]
  simp

theorem symbolicRefHead_apply (st : GitState) :
    symbolicRefHead st = (Except.ok st.head, st) := rfl

theorem checkoutNewBranch_ok {st : GitState} {name : String}
    (h : lookupBranch st.locals name = none) :
    checkoutNewBranch name st =
      (Except.ok (),
       { st with locals := setBranch st.locals name ((lookupBranch st.locals st.head).getD []),
                 head := name }) := by
  simp [checkoutNewBranch, h]

theorem isDirty_apply (st : GitState) :
    isDirty st =
      (Except.ok (!Tree.equiv st.worktree (tipTree ((lookupBranch st.locals st.head).getD []))),
       st) := rfl

theorem commitAll_apply (msg : String) (st : GitState) :
    commitAll msg st =
      (Except.ok (),
       { st with
           locals := setBranch st.locals st.head
             (⟨st.nextId, msg, st.worktree, tipTree ((lookupBranch st.locals st.head).getD [])⟩ ::
               (lookupBranch st.locals st.head).getD []),
           nextId := st.nextId + 1 }) := rfl

theorem fetchForceBranch_ok {st : GitState} {name : String} {h : History}
    (hb : st.broken.contains name = false) (hr : lookupBranch st.remote name = some h) :
    fetchForceBranch name st =
      (Except.ok (), { st with locals := setBranch st.locals name h }) := by
  have hb' : name ∉ st.broken := by simpa using hb
  simp [fetchForceBranch, hb', hr]

theorem fetchTrackingBranch_ok {st : GitState} {name : String} {h : History}
    (hb : st.broken.contains name = false) (hr : lookupBranch st.remote name = some h) :
    fetchTrackingBranch name st =
      (Except.ok (), { st with tracking := setBranch st.tracking name h }) := by
  have hb' : name ∉ st.broken := by simpa using hb
  simp [fetchTrackingBranch, hb', hr]

theorem fetch_successful_false {st : GitState} {name : String}
    (h : st.broken.contains name = true ∨ lookupBranch st.remote name = none) :
    fetch_successful name st = (Except.ok false, st) := by
  rcases h with h | h
  · have h' : name ∈ st.broken := by simpa using h
    simp [fetch_successful, fetchTrackingBranch, h']
  · rw [fetch_successful, fetchTrackingBranch]
    by_cases hb : name ∈ st.broken
    · simp [hb]
    · simp [hb, h]

theorem fetch_successful_true {st : GitState} {name : String} {h : History}
    (hb : st.broken.contains name = false) (hr : lookupBranch st.remote name = some h) :
    fetch_successful name st =
      (Except.ok true, { st with tracking := setBranch st.tracking name h }) := by
  rw [fetch_successful, fetchTrackingBranch_ok hb hr]

theorem checkoutExisting_local {st : GitState} {name : String} {h : History}
    (hl : lookupBranch st.locals name = some h) :
    checkoutExisting name st =
      (Except.ok (), { st with head := name, worktree := tipTree h }) := by
  simp [checkoutExisting, hl]

theorem checkoutExisting_dwim {st : GitState} {name : String} {h : History}
    (hl : lookupBranch st.locals name = none) (ht : lookupBranch st.tracking name = some h) :
    checkoutExisting name st =
      (Except.ok (),
       { st with locals := setBranch st.locals name h, head := name, worktree := tipTree h }) := by
  simp [checkoutExisting, hl, ht]

theorem checkoutB_head {st : GitState} {name : String} {h : History}
    (hl : lookupBranch st.locals st.head = some h) :
    checkoutB name "HEAD" st =
      (Except.ok (),
       { st with locals := setBranch st.locals name h, head := name, worktree := tipTree h }) := by
  simp [checkoutB, hl]

theorem checkoutB_ref {st : GitState} {name target : String} {h : History}
    (hne : (target == "HEAD") = false) (hres : resolveRef st target = some h) :
    checkoutB name target st =
      (Except.ok (),
       { st with locals := setBranch st.locals name h, head := name, worktree := tipTree h }) := by
  simp [checkoutB, hne, hres]

theorem revListReverse_ok {st : GitState} {b1 b2 : String} {h1 h2 : History}
    (hr1 : resolveRef st b1 = some h1) (hr2 : resolveRef st b2 = some h2) :
    revListReverse b1 b2 st =
      (Except.ok ((h2.filter (fun c => !histMem c h1)).reverse), st) := by
  simp [revListReverse, hr1, hr2]

theorem is_ahead_ok {st : GitState} {b1 b2 : String} {h1 h2 : History}
    (hr1 : resolveRef st b1 = some h1) (hr2 : resolveRef st b2 = some h2) :
    is_ahead b1 b2 st = (Except.ok (decide (0 < aheadCount h1 h2)), st) := by
  rw [is_ahead, bind_apply]
  simp [revListCountRight, hr1, hr2, pure_apply]

theorem is_behind_ok {st : GitState} {b1 b2 : String} {h1 h2 : History}
    (hr1 : resolveRef st b1 = some h1) (hr2 : resolveRef st b2 = some h2) :
    is_behind b1 b2 st = (Except.ok (decide (0 < behindCount h1 h2)), st) := by
  rw [is_behind, bind_apply]
  simp [revListCountLeft, hr1, hr2, pure_apply]

theorem is_even_ok {st : GitState} {b1 b2 : String} {h1 h2 : History}
    (hr1 : resolveRef st b1 = some h1) (hr2 : resolveRef st b2 = some h2) :
    is_even b1 b2 st =
      (Except.ok (!decide (0 < aheadCount h1 h2) && !decide (0 < behindCount h1 h2)), st) := by
  rw [is_even, bind_apply, is_ahead_ok hr1 hr2]
  cases ha : decide (0 < aheadCount h1 h2) with
  | true => simp [pure_apply]
  | false =>
    simp only [Bool.false_eq_true, if_false, bind_apply]
    rw [is_behind_ok hr1 hr2]
    simp [pure_apply]

theorem has_diff_ok {st : GitState} {b1 b2 : String} {h1 h2 : History}
    (hr1 : resolveRef st b1 = some h1) (hr2 : resolveRef st b2 = some h2) :
    has_diff b1 b2 st =
      (Except.ok (!Tree.equiv (tipTree h1) (tipTree h2)), st) := by
  simp [has_diff, diffNonEmpty, hr1, hr2]

theorem branchDeleteForce_ok {st : GitState} {name : String} {h : History}
    (hh : (st.head == name) = false) (hl : lookupBranch st.locals name = some h) :
    branchDeleteForce name st =
      (Except.ok (), { st with locals := removeBranch st.locals name }) := by
  simp [branchDeleteForce, hh, hl]

theorem bind_eq_ok {α β : Type} {x : GitM α} {f : α → GitM β} {st st₂ : GitState}
    {r : β} (h : (x >>= f) st = (Except.ok r, st₂)) :
    ∃ a st', x st = (Except.ok a, st') ∧ f a st' = (Except.ok r, st₂) := by
  rw [bind_apply] at h
  rcases hx : x st with ⟨ea, st'⟩
  rw [hx] at h
  cases ea with
  | ok a => exact ⟨a, st', rfl, h⟩
  | error e => simp at h

theorem cherryPickCmd_spec (s so : String) (c : Commit) (st : GitState) :
    (∃ e, cherryPickCmd s so c st =
      (Except.error e, { st with picks := st.picks ++ [⟨s, so, c.cid⟩] })) ∨
    cherryPickCmd s so c st =
      (Except.ok (),
       { st with
           picks := st.picks ++ [⟨s, so, c.cid⟩],
           locals := setBranch st.locals st.head
             (⟨st.nextId, c.msg,
               mergeTheirs (tipTree ((lookupBranch st.locals st.head).getD [])) c.parentTree c.tree,
               tipTree ((lookupBranch st.locals st.head).getD [])⟩ ::
               (lookupBranch st.locals st.head).getD []),
           worktree :=
             mergeTheirs (tipTree ((lookupBranch st.locals st.head).getD [])) c.parentTree c.tree,
           nextId := st.nextId + 1 }) := by
  rw [cherryPickCmd]
  rcases hfind : (st.pickErr.find? (fun p => p.1 == c.cid)).map (fun p => p.2) with _ | msg
  · simp only [hfind]
    split
    · exact Or.inl ⟨_, rfl⟩
    · exact Or.inr rfl
  · simp only [hfind]
    exact Or.inl ⟨_, rfl⟩

theorem cherryPickCmd_picks (s so : String) (c : Commit) (st : GitState) :
    (cherryPickCmd s so c st).2.picks = st.picks ++ [⟨s, so, c.cid⟩] := by
  rcases cherryPickCmd_spec s so c st with ⟨e, he⟩ | he <;> rw [he]

theorem cherryPickCommits_cons (c : Commit) (rest : List Commit) (st : GitState) :
    cherryPickCommits (c :: rest) st =
      match cherryPickCmd "recursive" "theirs" c st with
      | (Except.error e, st') =>
        if strHasSub CHERRYPICK_EMPTY e.stderr then cherryPickCommits rest st'
        else (Except.error e, st')
      | (Except.ok _, st') => cherryPickCommits rest st' := rfl

theorem cherryPickCommits_frame (CL : List Commit) :
    ∀ st : GitState,
      (cherryPickCommits CL st).2.head = st.head ∧
      (cherryPickCommits CL st).2.remote = st.remote ∧
      (cherryPickCommits CL st).2.broken = st.broken ∧
      (cherryPickCommits CL st).2.tracking = st.tracking ∧
      (∀ n, n ≠ st.head →
        lookupBranch (cherryPickCommits CL st).2.locals n = lookupBranch st.locals n) ∧
      ((lookupBranch st.locals st.head).isSome →
        (lookupBranch (cherryPickCommits CL st).2.locals st.head).isSome) := by
  induction CL with
  | nil => exact fun st => ⟨rfl, rfl, rfl, rfl, fun n _ => rfl, fun hs => hs⟩
  | cons c rest ih =>
    intro st
    rw [cherryPickCommits_cons]
    rcases cherryPickCmd_spec "recursive" "theirs" c st with ⟨e, he⟩ | he <;> rw [he]
    · cases hsub : strHasSub CHERRYPICK_EMPTY e.stderr with
      | true =>
        simp only [hsub, if_true]
        have hrest := ih { st with picks := st.picks ++ [⟨"recursive", "theirs", c.cid⟩] }
        exact ⟨hrest.1, hrest.2.1, hrest.2.2.1, hrest.2.2.2.1,
          fun n hn => hrest.2.2.2.2.1 n hn, fun hs => hrest.2.2.2.2.2 hs⟩
      | false => simp [hsub]
    · have hrest := ih { st with
        picks := st.picks ++ [⟨"recursive", "theirs", c.cid⟩],
        locals := setBranch st.locals st.head
          (⟨st.nextId, c.msg,
            mergeTheirs (tipTree ((lookupBranch st.locals st.head).getD [])) c.parentTree c.tree,
            tipTree ((lookupBranch st.locals st.head).getD [])⟩ ::
            (lookupBranch st.locals st.head).getD []),
        worktree :=
          mergeTheirs (tipTree ((lookupBranch st.locals st.head).getD [])) c.parentTree c.tree,
        nextId := st.nextId + 1 }
      refine ⟨hrest.1, hrest.2.1, hrest.2.2.1, hrest.2.2.2.1, fun n hn => ?_, fun _ => ?_⟩
      · rw [hrest.2.2.2.2.1 n hn]
        exact lookupBranch_setBranch_ne _ _ _ _ hn
      · refine hrest.2.2.2.2.2 ?_
        rw [lookupBranch_setBranch_self]
        rfl

theorem ok_pair_inj {α : Type} {a b : α} {s t : GitState}
    (h : ((Except.ok a : Except GitError α), s) = (Except.ok b, t)) : a = b ∧ s = t := by
  injection h with h1 h2
  exact ⟨by injection h1, h2⟩

theorem cherryPickCommits_ok_picks (CL : List Commit) :
    ∀ st st₂ : GitState, cherryPickCommits CL st = (Except.ok (), st₂) →
      st₂.picks = st.picks ++ CL.map (fun c => (⟨"recursive", "theirs", c.cid⟩ : PickCall)) := by
  induction CL with
  | nil =>
    intro st st₂ h
    cases h
    simp
  | cons c rest ih =>
    intro st st₂ h
    rw [cherryPickCommits_cons] at h
    rcases cherryPickCmd_spec "recursive" "theirs" c st with ⟨e, he⟩ | he <;> rw [he] at h
    · cases hsub : strHasSub CHERRYPICK_EMPTY e.stderr with
      | true =>
        simp only [hsub, if_true] at h
        rw [ih _ _ h]
        simp
      | false =>
        simp only [hsub, Bool.false_eq_true, if_false] at h
        simp at h
    · rw [ih _ _ h]
      simp

theorem coubRebase_ok {wb B temp branch : String} {stC stM : GitState}
    (h : coubRebase wb B temp stC = (Except.ok (), stM))
    (hbB : branch ≠ B) (hbt : branch ≠ temp) (htB : temp ≠ B) :
    stM.head = temp ∧
    (∃ T, lookupBranch stM.locals temp = some T) ∧
    (∃ RW, lookupBranch stC.remote B = some RW ∧ lookupBranch stM.locals B = some RW) ∧
    lookupBranch stM.locals branch = lookupBranch stC.locals branch ∧
    stM.remote = stC.remote ∧ stM.broken = stC.broken ∧ stM.tracking = stC.tracking := by
  rw [coubRebase] at h
  obtain ⟨u1, s1, h1, h⟩ := bind_eq_ok h
  cases hbr : stC.broken.contains B with
  | true =>
    have hmem : B ∈ stC.broken := by simpa using hbr
    simp [fetchForceBranch, hmem] at h1
  | false =>
    rcases hrem : lookupBranch stC.remote B with _ | RB
    · have hb' : B ∉ stC.broken := by simpa using hbr
      simp [fetchForceBranch, hb', hrem] at h1
    · rw [fetchForceBranch_ok hbr hrem] at h1
      obtain ⟨-, hs1⟩ := ok_pair_inj h1
      have e1l : s1.locals = setBranch stC.locals B RB := by rw [← hs1]
      have e1h : s1.head = stC.head := by rw [← hs1]
      have e1r : s1.remote = stC.remote := by rw [← hs1]
      have e1b : s1.broken = stC.broken := by rw [← hs1]
      have e1t : s1.tracking = stC.tracking := by rw [← hs1]
      obtain ⟨u2, s2, h2, h⟩ := bind_eq_ok h
      rw [checkoutExisting_local
        (show lookupBranch s1.locals B = some RB by
          rw [e1l, lookupBranch_setBranch_self])] at h2
      obtain ⟨-, hs2⟩ := ok_pair_inj h2
      have e2l : s2.locals = s1.locals := by rw [← hs2]
      have e2h : s2.head = B := by rw [← hs2]
      have e2r : s2.remote = s1.remote := by rw [← hs2]
      have e2b : s2.broken = s1.broken := by rw [← hs2]
      have e2t : s2.tracking = s1.tracking := by rw [← hs2]
      obtain ⟨CL, s3, h3, h⟩ := bind_eq_ok h
      rcases hr1 : resolveRef s2 wb with _ | H1
      · simp [revListReverse, hr1] at h3
      · rcases hr2 : resolveRef s2 temp with _ | H2
        · simp [revListReverse, hr1, hr2] at h3
        · rw [revListReverse_ok hr1 hr2] at h3
          obtain ⟨-, hs3⟩ := ok_pair_inj h3
          subst hs3
          obtain ⟨u4, s4, h4, h⟩ := bind_eq_ok h
          have hframe := cherryPickCommits_frame CL s2
          rcases hloop : cherryPickCommits CL s2 with ⟨el, s4'⟩
          rw [hloop] at h4 hframe
          cases el with
          | error e => simp at h4
          | ok u =>
            obtain ⟨-, hs4⟩ := ok_pair_inj h4
            rw [← hs4] at h
            have f1 : s4'.head = s2.head := hframe.1
            have f2 : s4'.remote = s2.remote := hframe.2.1
            have f3 : s4'.broken = s2.broken := hframe.2.2.1
            have f4 : s4'.tracking = s2.tracking := hframe.2.2.2.1
            have f5 : ∀ n, n ≠ s2.head →
                lookupBranch s4'.locals n = lookupBranch s2.locals n := hframe.2.2.2.2.1
            obtain ⟨u5, s5, h5, h⟩ := bind_eq_ok h
            rcases hHB : lookupBranch s4'.locals s4'.head with _ | HB
            · rw [checkoutB] at h5
              simp [hHB] at h5
            · rw [checkoutB_head hHB] at h5
              obtain ⟨-, hs5⟩ := ok_pair_inj h5
              have e5l : s5.locals = setBranch s4'.locals temp HB := by rw [← hs5]
              have e5h : s5.head = temp := by rw [← hs5]
              have e5r : s5.remote = s4'.remote := by rw [← hs5]
              have e5b : s5.broken = s4'.broken := by rw [← hs5]
              have e5t : s5.tracking = s4'.tracking := by rw [← hs5]
              have hbr5 : s5.broken.contains B = false := by
                rw [e5b, f3, e2b, e1b]
                exact hbr
              have hrem5 : lookupBranch s5.remote B = some RB := by
                rw [e5r, f2, e2r, e1r]
                exact hrem
              rw [fetchForceBranch_ok hbr5 hrem5] at h
              obtain ⟨-, hsM⟩ := ok_pair_inj h
              have eMl : stM.locals = setBranch s5.locals B RB := by rw [← hsM]
              have eMh : stM.head = s5.head := by rw [← hsM]
              have eMr : stM.remote = s5.remote := by rw [← hsM]
              have eMb : stM.broken = s5.broken := by rw [← hsM]
              have eMt : stM.tracking = s5.tracking := by rw [← hsM]
              refine ⟨?_, ⟨HB, ?_⟩, ⟨RB, rfl, ?_⟩, ?_, ?_, ?_, ?_⟩
              · rw [eMh, e5h]
              · rw [eMl, lookupBranch_setBranch_ne _ _ _ _ htB, e5l,
                  lookupBranch_setBranch_self]
              · rw [eMl, lookupBranch_setBranch_self]
              · rw [eMl, lookupBranch_setBranch_ne _ _ _ _ hbB, e5l,
                  lookupBranch_setBranch_ne _ _ _ _ hbt,
                  f5 branch (by rw [e2h]; exact hbB), e2l, e1l,
                  lookupBranch_setBranch_ne _ _ _ _ hbB]
              · rw [eMr, e5r, f2, e2r, e1r]
              · rw [eMb, e5b, f3, e2b, e1b]
              · rw [eMt, e5t, f4, e2t, e1t]

theorem stepsBC_ok {wb B branch temp : String} {sC stF : GitState} {r : CoubResult}
    (h : (do
            fetchForceBranch wb
            if wb != B then coubRebase wb B temp
            coubFinish B branch temp) sC = (Except.ok r, stF))
    (hbt : branch ≠ temp) (hbB : branch ≠ B) (hbw : branch ≠ wb)
    (htB : temp ≠ B) (htw : temp ≠ wb)
    (hhead : sC.head = temp)
    (hT : ∃ T0, lookupBranch sC.locals temp = some T0)
    (hbl : lookupBranch sC.locals branch = none) :
    ∃ stM T RW,
      coubFinish B branch temp stM = (Except.ok r, stF) ∧
      stM.head = temp ∧ lookupBranch stM.locals temp = some T ∧
      lookupBranch sC.remote B = some RW ∧ lookupBranch stM.locals B = some RW ∧
      lookupBranch stM.locals branch = none ∧
      stM.remote = sC.remote ∧ stM.broken = sC.broken ∧ stM.tracking = sC.tracking := by
  obtain ⟨T0, hT0⟩ := hT
  obtain ⟨u1, s1, h1, h⟩ := bind_eq_ok h
  cases hbrw : sC.broken.contains wb with
  | true =>
    have hmem : wb ∈ sC.broken := by simpa using hbrw
    simp [fetchForceBranch, hmem] at h1
  | false =>
    rcases hremw : lookupBranch sC.remote wb with _ | RWB
    · have hb' : wb ∉ sC.broken := by simpa using hbrw
      simp [fetchForceBranch, hb', hremw] at h1
    · rw [fetchForceBranch_ok hbrw hremw] at h1
      obtain ⟨-, hs1⟩ := ok_pair_inj h1
      have e1l : s1.locals = setBranch sC.locals wb RWB := by rw [← hs1]
      have e1h : s1.head = sC.head := by rw [← hs1]
      have e1r : s1.remote = sC.remote := by rw [← hs1]
      have e1b : s1.broken = sC.broken := by rw [← hs1]
      have e1t : s1.tracking = sC.tracking := by rw [← hs1]
      cases hwB : (wb != B) with
      | false =>
        simp only [hwB, Bool.false_eq_true, if_false] at h
        have heqwB : wb = B := by simpa using hwB
        subst heqwB
        refine ⟨s1, T0, RWB, h, ?_, ?_, hremw, ?_, ?_, e1r, e1b, e1t⟩
        · rw [e1h, hhead]
        · rw [e1l, lookupBranch_setBranch_ne _ _ _ _ htw, hT0]
        · rw [e1l, lookupBranch_setBranch_self]
        · rw [e1l, lookupBranch_setBranch_ne _ _ _ _ hbw, hbl]
      | true =>
        simp only [hwB, eq_self_iff_true, if_true] at h
        obtain ⟨u2, s2, h2, h⟩ := bind_eq_ok h
        cases u2
        obtain ⟨hMh, ⟨T, hMT⟩, ⟨RW, hRWr, hRWl⟩, hMbr, hMr, hMb, hMt⟩ :=
          coubRebase_ok h2 hbB hbt htB
        refine ⟨s2, T, RW, h, hMh, hMT, ?_, hRWl, ?_, ?_, ?_, ?_⟩
        · rw [← e1r]
          exact hRWr
        · rw [hMbr, e1l, lookupBranch_setBranch_ne _ _ _ _ hbw, hbl]
        · rw [hMr, e1r]
        · rw [hMb, e1b]
        · rw [hMt, e1t]

theorem stepsABC_ok {cm : String} {base? : Option String} {branch temp : String}
    {st stF : GitState} {r : CoubResult}
    (h : create_or_update_branch cm base? branch temp st = (Except.ok r, stF))
    (hbt : branch ≠ temp) (hbw : branch ≠ st.head) (hbB : branch ≠ base?.getD st.head)
    (htw : temp ≠ st.head) (htB : temp ≠ base?.getD st.head)
    (hbl : lookupBranch st.locals branch = none) :
    ∃ stM T RW,
      coubFinish (base?.getD st.head) branch temp stM = (Except.ok r, stF) ∧
      stM.head = temp ∧
      lookupBranch stM.locals temp = some T ∧
      lookupBranch st.remote (base?.getD st.head) = some RW ∧
      lookupBranch stM.locals (base?.getD st.head) = some RW ∧
      lookupBranch stM.locals branch = none ∧
      stM.remote = st.remote ∧ stM.broken = st.broken ∧ stM.tracking = st.tracking := by
  rw [create_or_update_branch] at h
  obtain ⟨wb, s0, h0, h⟩ := bind_eq_ok h
  rw [symbolicRefHead_apply] at h0
  obtain ⟨hwb, hs0⟩ := ok_pair_inj h0
  subst hwb
  subst hs0
  obtain ⟨uA, sA, hA, h⟩ := bind_eq_ok h
  rcases htl : lookupBranch st.locals temp with _ | Tex
  · rw [checkoutNewBranch_ok htl] at hA
    obtain ⟨-, hsA⟩ := ok_pair_inj hA
    have eAl : sA.locals =
        setBranch st.locals temp ((lookupBranch st.locals st.head).getD []) := by rw [← hsA]
    have eAh : sA.head = temp := by rw [← hsA]
    have eAr : sA.remote = st.remote := by rw [← hsA]
    have eAb : sA.broken = st.broken := by rw [← hsA]
    have eAt : sA.tracking = st.tracking := by rw [← hsA]
    obtain ⟨dirty, sB0, hB0, h⟩ := bind_eq_ok h
    rw [isDirty_apply] at hB0
    obtain ⟨hdirty, hsB0⟩ := ok_pair_inj hB0
    subst hsB0
    cases dirty with
    | false =>
      simp only [Bool.false_eq_true, if_false] at h
      obtain ⟨stM, T, RW, hfin, hMh, hMT, hRWr, hRWl, hMbr, hMr, hMb, hMt⟩ :=
        stepsBC_ok h hbt hbB hbw htB htw eAh
          ⟨(lookupBranch st.locals st.head).getD [], by rw [eAl, lookupBranch_setBranch_self]⟩
          (by rw [eAl, lookupBranch_setBranch_ne _ _ _ _ hbt, hbl])
      refine ⟨stM, T, RW, hfin, hMh, hMT, ?_, hRWl, hMbr, ?_, ?_, ?_⟩
      · rw [← eAr]
        exact hRWr
      · rw [hMr, eAr]
      · rw [hMb, eAb]
      · rw [hMt, eAt]
    | true =>
      simp only [eq_self_iff_true, if_true] at h
      obtain ⟨uC, sCx, hC, h⟩ := bind_eq_ok h
      rw [commitAll_apply] at hC
      obtain ⟨-, hsC⟩ := ok_pair_inj hC
      have eCl : sCx.locals = setBranch sA.locals sA.head
          (⟨sA.nextId, cm, sA.worktree, tipTree ((lookupBranch sA.locals sA.head).getD [])⟩ ::
            (lookupBranch sA.locals sA.head).getD []) := by rw [← hsC]
      have eCh : sCx.head = sA.head := by rw [← hsC]
      have eCr : sCx.remote = sA.remote := by rw [← hsC]
      have eCb : sCx.broken = sA.broken := by rw [← hsC]
      have eCt : sCx.tracking = sA.tracking := by rw [← hsC]
      obtain ⟨stM, T, RW, hfin, hMh, hMT, hRWr, hRWl, hMbr, hMr, hMb, hMt⟩ :=
        stepsBC_ok h hbt hbB hbw htB htw (by rw [eCh, eAh])
          ⟨_, by rw [eCl, eAh, lookupBranch_setBranch_self]⟩
          (by rw [eCl, eAh, lookupBranch_setBranch_ne _ _ _ _ hbt, eAl,
                lookupBranch_setBranch_ne _ _ _ _ hbt, hbl])
      refine ⟨stM, T, RW, hfin, hMh, hMT, ?_, hRWl, hMbr, ?_, ?_, ?_⟩
      · rw [← eAr, ← eCr]
        exact hRWr
      · rw [hMr, eCr, eAr]
      · rw [hMb, eCb, eAb]
      · rw [hMt, eCt, eAt]
  · exfalso
    rw [checkoutNewBranch] at hA
    simp [htl] at hA

theorem caseOne_eq {B branch temp : String} {st : GitState} {T HB : History}
    (hfetch : st.broken.contains branch = true ∨ lookupBranch st.remote branch = none)
    (hbl : lookupBranch st.locals branch = none)
    (hhead : st.head = temp)
    (hT : lookupBranch st.locals temp = some T)
    (hHB : lookupBranch st.locals B = some HB)
    (hbo : "origin/".toList.isPrefixOf branch.toList = false)
    (hBo : "origin/".toList.isPrefixOf B.toList = false)
    (hbt : branch ≠ temp) (hBb : B ≠ branch) :
    coubFinish B branch temp st =
      (Except.ok ⟨if decide (0 < aheadCount HB T) then "created" else "none",
                  decide (0 < aheadCount HB T), B⟩,
       { st with locals := removeBranch (setBranch st.locals branch T) temp,
                 head := branch }) := by
  have hr1 : resolveRef { st with locals := setBranch st.locals branch T, head := branch } B =
      some HB := by
    rw [resolveRef_local _ _ hBo]
    show lookupBranch (setBranch st.locals branch T) B = some HB
    rw [lookupBranch_setBranch_ne _ _ _ _ hBb, hHB]
  have hr2 : resolveRef { st with locals := setBranch st.locals branch T, head := branch }
      branch = some T := by
    rw [resolveRef_local _ _ hbo]
    show lookupBranch (setBranch st.locals branch T) branch = some T
    rw [lookupBranch_setBranch_self]
  have hdel : branchDeleteForce temp
      { st with locals := setBranch st.locals branch T, head := branch } =
      (Except.ok (),
       { st with locals := removeBranch (setBranch st.locals branch T) temp,
                 head := branch }) := by
    have hh : ((branch : String) == temp) = false := by simp [hbt]
    have hl : lookupBranch (setBranch st.locals branch T) temp = some T := by
      rw [lookupBranch_setBranch_ne _ _ _ _ (Ne.symm hbt), hT]
    exact branchDeleteForce_ok hh hl
  rw [coubFinish, bind_apply, fetch_successful_false hfetch]
  simp only [Bool.not_false, if_true, bind_apply, checkoutNewBranch_ok hbl, hhead, hT,
    Option.getD_some, is_ahead_ok hr1 hr2, hdel, pure_apply]

theorem caseTwo_dwim_eq {B branch temp : String} {st : GitState} {T HB RB F : History}
    (hrb : lookupBranch st.remote branch = some RB)
    (hbroken : st.broken.contains branch = false)
    (hbl : lookupBranch st.locals branch = none)
    (hT : lookupBranch st.locals temp = some T)
    (hHB : lookupBranch st.locals B = some HB)
    (hbo : "origin/".toList.isPrefixOf branch.toList = false)
    (hBo : "origin/".toList.isPrefixOf B.toList = false)
    (hto : "origin/".toList.isPrefixOf temp.toList = false)
    (htH : (temp == "HEAD") = false)
    (hbt : branch ≠ temp) (hBb : B ≠ branch)
    (hF : F = if Tree.equiv (tipTree RB) (tipTree T) then RB else T) :
    coubFinish B branch temp st =
      (Except.ok ⟨if !(!decide (0 < aheadCount RB F) && !decide (0 < behindCount RB F))
                    then "updated" else "none",
                  decide (0 < aheadCount HB F), B⟩,
       { st with
           tracking := setBranch st.tracking branch RB,
           locals := removeBranch (setBranch st.locals branch F) temp,
           head := branch, worktree := tipTree F }) := by
  have hco : checkoutExisting branch { st with tracking := setBranch st.tracking branch RB } =
      (Except.ok (),
       { st with
           tracking := setBranch st.tracking branch RB,
           locals := setBranch st.locals branch RB,
           head := branch, worktree := tipTree RB }) := by
    refine checkoutExisting_dwim ?_ ?_
    · exact hbl
    · show lookupBranch (setBranch st.tracking branch RB) branch = some RB
      rw [lookupBranch_setBranch_self]
  have hresT2 :
      resolveRef
        { st with
            tracking := setBranch st.tracking branch RB,
            locals := setBranch st.locals branch RB,
            head := branch, worktree := tipTree RB }
        temp = some T := by
    rw [resolveRef_local _ _ hto]
    show lookupBranch (setBranch st.locals branch RB) temp = some T
    rw [lookupBranch_setBranch_ne _ _ _ _ (Ne.symm hbt), hT]
  have hresB2 :
      resolveRef
        { st with
            tracking := setBranch st.tracking branch RB,
            locals := setBranch st.locals branch RB,
            head := branch, worktree := tipTree RB }
        branch = some RB := by
    rw [resolveRef_local _ _ hbo]
    show lookupBranch (setBranch st.locals branch RB) branch = some RB
    rw [lookupBranch_setBranch_self]
  have hhd :
      has_diff branch temp
        { st with
            tracking := setBranch st.tracking branch RB,
            locals := setBranch st.locals branch RB,
            head := branch, worktree := tipTree RB } =
      (Except.ok (!Tree.equiv (tipTree RB) (tipTree T)),
       { st with
           tracking := setBranch st.tracking branch RB,
           locals := setBranch st.locals branch RB,
           head := branch, worktree := tipTree RB }) :=
    has_diff_ok hresB2 hresT2
  have hevF : ∀ G : History,
      resolveRef
        { st with
            tracking := setBranch st.tracking branch RB,
            locals := setBranch st.locals branch G,
            head := branch, worktree := tipTree G }
        ("origin/" ++ branch) = some RB := by
    intro G
    rw [resolveRef_origin]
    show lookupBranch (setBranch st.tracking branch RB) branch = some RB
    rw [lookupBranch_setBranch_self]
  have hbrF : ∀ G : History,
      resolveRef
        { st with
            tracking := setBranch st.tracking branch RB,
            locals := setBranch st.locals branch G,
            head := branch, worktree := tipTree G }
        branch = some G := by
    intro G
    rw [resolveRef_local _ _ hbo]
    show lookupBranch (setBranch st.locals branch G) branch = some G
    rw [lookupBranch_setBranch_self]
  have hBF : ∀ G : History,
      resolveRef
        { st with
            tracking := setBranch st.tracking branch RB,
            locals := setBranch st.locals branch G,
            head := branch, worktree := tipTree G }
        B = some HB := by
    intro G
    rw [resolveRef_local _ _ hBo]
    show lookupBranch (setBranch st.locals branch G) B = some HB
    rw [lookupBranch_setBranch_ne _ _ _ _ hBb, hHB]
  have hdelF : ∀ G : History,
      branchDeleteForce temp
        { st with
            tracking := setBranch st.tracking branch RB,
            locals := setBranch st.locals branch G,
            head := branch, worktree := tipTree G } =
      (Except.ok (),
       { st with
           tracking := setBranch st.tracking branch RB,
           locals := removeBranch (setBranch st.locals branch G) temp,
           head := branch, worktree := tipTree G }) := by
    intro G
    have hh : ((branch : String) == temp) = false := by simp [hbt]
    have hl : lookupBranch (setBranch st.locals branch G) temp = some T := by
      rw [lookupBranch_setBranch_ne _ _ _ _ (Ne.symm hbt), hT]
    exact branchDeleteForce_ok hh hl
  rw [coubFinish, bind_apply, fetch_successful_true hbroken hrb]
  cases heqv : Tree.equiv (tipTree RB) (tipTree T) with
  | true =>
    have hFv : F = RB := by rw [hF, heqv, if_pos rfl]
    rw [hFv]
    simp only [Bool.not_true, Bool.false_eq_true, if_false, bind_apply, hco, hhd, heqv,
      is_even_ok (hevF RB) (hbrF RB), is_ahead_ok (hBF RB) (hbrF RB), hdelF RB, pure_apply]
  | false =>
    have hFv : F = T := by
      rw [hF, heqv]
      simp
    rw [hFv]
    have hcb :
        checkoutB branch temp
          { st with
              tracking := setBranch st.tracking branch RB,
              locals := setBranch st.locals branch RB,
              head := branch, worktree := tipTree RB } =
        (Except.ok (),
         { st with
             tracking := setBranch st.tracking branch RB,
             locals := setBranch st.locals branch T,
             head := branch, worktree := tipTree T }) := by
      rw [checkoutB_ref htH hresT2]
      simp [setBranch_setBranch_self]
    simp only [Bool.not_true, Bool.false_eq_true, if_false, if_true, Bool.not_false, bind_apply,
      hco, hhd, heqv, hcb, is_even_ok (hevF T) (hbrF T), is_ahead_ok (hBF T) (hbrF T),
      hdelF T, pure_apply]

/-- Claim C6: the orchestrator force-pushes HEAD to refs/heads/branch exactly
when the reconciliation action is created or updated (action none means no
push and nothing else happens); when additionally the diff flag is false it
force-deletes the remote branch and terminates with exit status 0 without
invoking the external PR client (outcome deletedNoDiff). -/
theorem claim_C6 (result : CoubResult) (branch : String) (st : GitState) :
    ((orchestrate result branch st).2.pushes =
      st.pushes ++ (if ["created", "updated"].contains result.action then [branch] else [])) ∧
    (["created", "updated"].contains result.action = true → result.diff = false →
      orchestrate result branch st =
        (Except.ok MainOutcome.deletedNoDiff,
         { st with
             remote := removeBranch (setBranch st.remote branch
               ((lookupBranch st.locals st.head).getD [])) branch,
             pushes := st.pushes ++ [branch],
             deletes := st.deletes ++ [branch] })) ∧
    (["created", "updated"].contains result.action = false →
      orchestrate result branch st = (Except.ok MainOutcome.noop, st)) := by
  refine ⟨?_, ?_, ?_⟩
  · cases hmem : ["created", "updated"].contains result.action with
    | true =>
      cases hdiff : result.diff with
      | true =>
        simp only [orchestrate, hmem, eq_self_iff_true, if_true, hdiff, Bool.not_true,
          Bool.false_eq_true, if_false, bind_apply, pushForceHead, pure_apply]
      | false =>
        simp only [orchestrate, hmem, eq_self_iff_true, if_true, hdiff, Bool.not_false,
          bind_apply, pushForceHead, pushDeleteRemote, pure_apply]
    | false =>
      simp only [orchestrate, hmem, Bool.false_eq_true, if_false, pure_apply,
        List.append_nil]
  · intro hm hd
    simp only [orchestrate, hm, eq_self_iff_true, if_true, hd, Bool.not_false,
      bind_apply, pushForceHead, pushDeleteRemote, pure_apply]
  · intro hm
    simp only [orchestrate, hm, Bool.false_eq_true, if_false, pure_apply]

/-- Witness for claim C6 at concrete results: an updated result with no diff
is pushed, deleted remotely and ends without the PR client; a none result
leaves the state untouched. -/
theorem claim_C6_witness :
    orchestrate ⟨"updated", false, "master"⟩ "pr" stBase =
      (Except.ok MainOutcome.deletedNoDiff,
       { stBase with
           remote := removeBranch (setBranch stBase.remote "pr"
             ((lookupBranch stBase.locals stBase.head).getD [])) "pr",
           pushes := stBase.pushes ++ ["pr"],
           deletes := stBase.deletes ++ ["pr"] }) ∧
    orchestrate ⟨"none", true, "master"⟩ "pr" stBase = (Except.ok MainOutcome.noop, stBase) :=
  ⟨(claim_C6 ⟨"updated", false, "master"⟩ "pr" stBase).2.1 (by decide) (by decide),
   (claim_C6 ⟨"none", true, "master"⟩ "pr" stBase).2.2 (by decide)⟩

/-- Claim C8: when exactly one of committer and author is supplied to the
identity resolver, that string is used for both roles (both pairs of
environment values come from it); when neither is supplied but the
repository configuration already carries a complete identity, either
user.name plus user.email or all four committer and author values, the
existing configuration is kept as-is. -/
theorem claim_C8 :
    (∀ (cfg : GitConfig) (c cn ce : String),
        parse_display_name_email c = Except.ok (cn, ce) →
        set_committer_author cfg (some c) none =
          Except.ok (IdentityResult.setEnv cn ce cn ce)) ∧
    (∀ (cfg : GitConfig) (a an ae : String),
        parse_display_name_email a = Except.ok (an, ae) →
        set_committer_author cfg none (some a) =
          Except.ok (IdentityResult.setEnv an ae an ae)) ∧
    (∀ cfg : GitConfig,
        (((get_git_config_value cfg "user.name").isSome ∧
          (get_git_config_value cfg "user.email").isSome) ∨
         ((get_git_config_value cfg "committer.name").isSome ∧
          (get_git_config_value cfg "committer.email").isSome ∧
          (get_git_config_value cfg "author.name").isSome ∧
          (get_git_config_value cfg "author.email").isSome)) →
        set_committer_author cfg none none = Except.ok IdentityResult.keptExisting) := by
  refine ⟨?_, ?_, ?_⟩
  · intro cfg c cn ce hp
    simp [set_committer_author, hp]
  · intro cfg a an ae hp
    simp [set_committer_author, hp]
  · intro cfg hcfg
    have hset : git_user_config_is_set cfg = true := by
      rcases hcfg with ⟨h1, h2⟩ | ⟨h1, h2, h3, h4⟩ <;>
        simp [git_user_config_is_set, h1, h2]
      · simp [*]
    simp [set_committer_author, hset]

/-- Witness for claim C8: a committer alone fills both roles, and an
existing user.name plus user.email configuration is kept. -/
theorem claim_C8_witness :
    set_committer_author [] (some "GitHub <noreply@github.com>") none =
      Except.ok (IdentityResult.setEnv "GitHub" "noreply@github.com"
        "GitHub" "noreply@github.com") ∧
    set_committer_author [("user.name", "a"), ("user.email", "b")] none none =
      Except.ok IdentityResult.keptExisting :=
  ⟨claim_C8.1 [] "GitHub <noreply@github.com>" "GitHub" "noreply@github.com" (by decide),
   claim_C8.2.2 [("user.name", "a"), ("user.email", "b")] (Or.inl (by decide))⟩

/-- Claim C3: in the rebase step the commits enumerated by rev-list are
cherry-picked in order, each with strategy recursive and strategy option
theirs (first conjunct: a completed loop has recorded exactly one such
invocation per commit, in list order; the loop is invoked by coubRebase on
the rev-list enumeration of working_base..temp restricted to the current
path); a cherry-pick failure whose stderr contains the
empty-cherry-pick signal is absorbed, the commit is dropped and the loop
continues on the state left by the failed command (second conjunct); and
every other cherry-pick failure is re-raised, so it propagates out of the
loop and, through the bind of the effect monad, out of
create_or_update_branch (third conjunct). -/
theorem claim_C3 :
    (∀ (commits : List Commit) (st st₂ : GitState),
        cherryPickCommits commits st = (Except.ok (), st₂) →
        st₂.picks = st.picks ++
          commits.map (fun c => (⟨"recursive", "theirs", c.cid⟩ : PickCall))) ∧
    (∀ (c : Commit) (rest : List Commit) (st st₂ : GitState) (e : GitError),
        cherryPickCmd "recursive" "theirs" c st = (Except.error e, st₂) →
        strHasSub CHERRYPICK_EMPTY e.stderr = true →
        cherryPickCommits (c :: rest) st = cherryPickCommits rest st₂) ∧
    (∀ (c : Commit) (rest : List Commit) (st st₂ : GitState) (e : GitError),
        cherryPickCmd "recursive" "theirs" c st = (Except.error e, st₂) →
        strHasSub CHERRYPICK_EMPTY e.stderr = false →
        cherryPickCommits (c :: rest) st = (Except.error e, st₂)) := by
  refine ⟨fun commits => cherryPickCommits_ok_picks commits, ?_, ?_⟩
  · intro c rest st st₂ e hc hsub
    rw [cherryPickCommits_cons, hc]
    simp only [hsub, if_true]
  · intro c rest st st₂ e hc hsub
    rw [cherryPickCommits_cons, hc]
    simp only [hsub, Bool.false_eq_true, if_false]

/-- Witness for claim C3 at concrete picks on SPa: a successful single-commit
loop records the recursive/theirs invocation; an empty cherry-pick is
absorbed and the loop continues; the injected non-empty failure is
re-raised. -/
theorem claim_C3_witness :
    ((cherryPickCommits [cGood] SPa).2.picks =
      SPa.picks ++ [⟨"recursive", "theirs", 7⟩]) ∧
    (cherryPickCommits [cNil] SPa =
      cherryPickCommits [] { SPa with picks := SPa.picks ++ [⟨"recursive", "theirs", 8⟩] }) ∧
    (cherryPickCommits [cBad] SPa =
      (Except.error ⟨"error: could not apply the commit"⟩,
       { SPa with picks := SPa.picks ++ [⟨"recursive", "theirs", 9⟩] })) := by
  refine ⟨?_, ?_, ?_⟩
  · have h : cherryPickCommits [cGood] SPa =
        (Except.ok (), (cherryPickCommits [cGood] SPa).2) := by
      have hfst : (cherryPickCommits [cGood] SPa).1 = Except.ok () := by decide
      rw [← hfst]
    exact claim_C3.1 [cGood] SPa (cherryPickCommits [cGood] SPa).2 h
  · exact claim_C3.2.1 cNil [] SPa
      { SPa with picks := SPa.picks ++ [⟨"recursive", "theirs", 8⟩] }
      ⟨"error: " ++ CHERRYPICK_EMPTY ++ " Use git cherry-pick --skip"⟩
      (by decide) (by decide)
  · exact claim_C3.2.2 cBad [] SPa
      { SPa with picks := SPa.picks ++ [⟨"recursive", "theirs", 9⟩] }
      ⟨"error: could not apply the commit"⟩ (by decide) (by decide)

/-- Claim C2: when the target branch does not exist on the remote (Case 1),
a successful run of create_or_update_branch leaves HEAD on the target
branch, creates the local target branch at the temp tip, deletes the temp
branch, sets diff to whether the branch is ahead of the base (right-only
rev-list count on base...branch strictly positive), and returns action
"created" exactly when diff is true and "none" otherwise. -/
theorem claim_C2 {cm : String} {base? : Option String} {branch temp : String}
    {st stF : GitState} {r : CoubResult}
    (hrun : create_or_update_branch cm base? branch temp st = (Except.ok r, stF))
    (habsent : lookupBranch st.remote branch = none)
    (hbl : lookupBranch st.locals branch = none)
    (hbt : branch ≠ temp) (hbw : branch ≠ st.head) (hbB : branch ≠ base?.getD st.head)
    (htw : temp ≠ st.head) (htB : temp ≠ base?.getD st.head)
    (hbo : "origin/".toList.isPrefixOf branch.toList = false)
    (hBo : "origin/".toList.isPrefixOf (base?.getD st.head).toList = false) :
    r.base = base?.getD st.head ∧
    stF.head = branch ∧
    lookupBranch stF.locals temp = none ∧
    ∃ T RW,
      lookupBranch st.remote (base?.getD st.head) = some RW ∧
      lookupBranch stF.locals branch = some T ∧
      r.diff = decide (0 < aheadCount RW T) ∧
      r.action = (if r.diff then "created" else "none") := by
  obtain ⟨stM, T, RW, hfin, hMh, hMT, hRWr, hRWl, hMbr, hMr, hMb, hMt⟩ :=
    stepsABC_ok hrun hbt hbw hbB htw htB hbl
  have hfetch : stM.broken.contains branch = true ∨
      lookupBranch stM.remote branch = none := by
    right
    rw [hMr]
    exact habsent
  rw [caseOne_eq hfetch hMbr hMh hMT hRWl hbo hBo hbt (Ne.symm hbB)] at hfin
  obtain ⟨hre, hsF⟩ := ok_pair_inj hfin
  subst hre
  subst hsF
  refine ⟨rfl, rfl, lookupBranch_removeBranch_self _ _, T, RW, hRWr, ?_, rfl, rfl⟩
  rw [lookupBranch_removeBranch_ne _ _ _ hbt, lookupBranch_setBranch_self]

/-- Witness for claim C2: on stBase the remote has no "pr" branch and the
run returns action "created" with diff true, HEAD on "pr", the branch
created at the temp tip and the temp branch deleted. -/
theorem claim_C2_witness :
    lookupBranch stBase.remote "pr" = none ∧
    ((create_or_update_branch "msg" none "pr" "tmpb" stBase).2.head = "pr" ∧
     lookupBranch (create_or_update_branch "msg" none "pr" "tmpb" stBase).2.locals
       "tmpb" = none) := by
  refine ⟨by decide, ?_⟩
  have hfst : (create_or_update_branch "msg" none "pr" "tmpb" stBase).1 =
      Except.ok ⟨"created", true, "master"⟩ := by decide
  have h : create_or_update_branch "msg" none "pr" "tmpb" stBase =
      (Except.ok ⟨"created", true, "master"⟩,
       (create_or_update_branch "msg" none "pr" "tmpb" stBase).2) := by
    rw [← hfst]
  have hmain := claim_C2 h (by decide) (by decide) (by decide) (by decide) (by decide)
    (by decide) (by decide) (by decide) (by decide)
  exact ⟨hmain.2.1, hmain.2.2.1⟩

/-- Claim C1: when the target branch exists on the remote and its fetch
succeeds (Case 2), a successful run of create_or_update_branch checks out
the local target branch (HEAD ends on it); the final local branch content F
is the remote branch RB when the content diff between branch and temp is
empty and the temp tip T otherwise (the force-reset); the returned action
is "updated" iff branch and origin/branch are not even (both rev-list
counts zero), else "none"; and the returned diff flag equals whether the
branch is ahead of the base. -/
theorem claim_C1 {cm : String} {base? : Option String} {branch temp : String}
    {st stF : GitState} {r : CoubResult} {RB : History}
    (hrun : create_or_update_branch cm base? branch temp st = (Except.ok r, stF))
    (hpresent : lookupBranch st.remote branch = some RB)
    (hbroken : st.broken.contains branch = false)
    (hbl : lookupBranch st.locals branch = none)
    (hbt : branch ≠ temp) (hbw : branch ≠ st.head) (hbB : branch ≠ base?.getD st.head)
    (htw : temp ≠ st.head) (htB : temp ≠ base?.getD st.head)
    (hbo : "origin/".toList.isPrefixOf branch.toList = false)
    (hBo : "origin/".toList.isPrefixOf (base?.getD st.head).toList = false)
    (hto : "origin/".toList.isPrefixOf temp.toList = false)
    (htH : (temp == "HEAD") = false) :
    ∃ T RW F,
      F = (if Tree.equiv (tipTree RB) (tipTree T) then RB else T) ∧
      lookupBranch st.remote (base?.getD st.head) = some RW ∧
      stF.head = branch ∧
      lookupBranch stF.locals branch = some F ∧
      lookupBranch stF.locals temp = none ∧
      lookupBranch stF.tracking branch = some RB ∧
      stF.worktree = tipTree F ∧
      r.base = base?.getD st.head ∧
      r.diff = decide (0 < aheadCount RW F) ∧
      r.action = (if !(!decide (0 < aheadCount RB F) && !decide (0 < behindCount RB F))
                  then "updated" else "none") := by
  obtain ⟨stM, T, RW, hfin, hMh, hMT, hRWr, hRWl, hMbr, hMr, hMb, hMt⟩ :=
    stepsABC_ok hrun hbt hbw hbB htw htB hbl
  have hrb : lookupBranch stM.remote branch = some RB := by
    rw [hMr]
    exact hpresent
  have hbrk : stM.broken.contains branch = false := by
    rw [hMb]
    exact hbroken
  rw [caseTwo_dwim_eq hrb hbrk hMbr hMT hRWl hbo hBo hto htH hbt (Ne.symm hbB) rfl]
    at hfin
  obtain ⟨hre, hsF⟩ := ok_pair_inj hfin
  subst hre
  subst hsF
  refine ⟨T, RW, _, rfl, hRWr, rfl, ?_, lookupBranch_removeBranch_self _ _, ?_, rfl,
    rfl, rfl, rfl⟩
  · rw [lookupBranch_removeBranch_ne _ _ _ hbt, lookupBranch_setBranch_self]
  · show lookupBranch (setBranch stM.tracking branch RB) branch = some RB
    rw [lookupBranch_setBranch_self]

/-- Witness for claim C1: on W1S the remote already has a "pr" branch at the
base tip; the run returns action "updated", HEAD ends on "pr" and the temp
branch is deleted. -/
theorem claim_C1_witness :
    lookupBranch W1S.remote "pr" = some [cInit] ∧
    ((create_or_update_branch "msg" none "pr" "tmpb" W1S).2.head = "pr" ∧
     lookupBranch (create_or_update_branch "msg" none "pr" "tmpb" W1S).2.locals
       "tmpb" = none) := by
  refine ⟨by decide, ?_⟩
  have hfst : (create_or_update_branch "msg" none "pr" "tmpb" W1S).1 =
      Except.ok ⟨"updated", true, "master"⟩ := by decide
  have h : create_or_update_branch "msg" none "pr" "tmpb" W1S =
      (Except.ok ⟨"updated", true, "master"⟩,
       (create_or_update_branch "msg" none "pr" "tmpb" W1S).2) := by
    rw [← hfst]
  have hmain := claim_C1 h
    (show lookupBranch W1S.remote "pr" = some [cInit] from by decide)
    (by decide) (by decide) (by decide) (by decide) (by decide) (by decide) (by decide)
    (by decide) (by decide) (by decide) (by decide)
  obtain ⟨T, RW, F, -, -, hhead, -, htmp, -⟩ := hmain
  exact ⟨hhead, htmp⟩

/-- Claim C10: every error raised while fetching the target branch is
swallowed by fetch_successful, which returns false and leaves the state as
the failed fetch left it; consequently even when the branch exists on the
remote, a failing fetch (here: an injected network failure) sends a
successful engine run down Case 1, creating the local branch from the temp
tip and reporting "created"/"none" from the ahead-of-base test. -/
theorem claim_C10 :
    (∀ (branch : String) (st st' : GitState) (e : GitError),
        fetchTrackingBranch branch st = (Except.error e, st') →
        fetch_successful branch st = (Except.ok false, st')) ∧
    (∀ (cm : String) (base? : Option String) (branch temp : String)
        (st stF : GitState) (r : CoubResult) (RB : History),
        create_or_update_branch cm base? branch temp st = (Except.ok r, stF) →
        st.broken.contains branch = true →
        lookupBranch st.remote branch = some RB →
        lookupBranch st.locals branch = none →
        branch ≠ temp → branch ≠ st.head → branch ≠ base?.getD st.head →
        temp ≠ st.head → temp ≠ base?.getD st.head →
        "origin/".toList.isPrefixOf branch.toList = false →
        "origin/".toList.isPrefixOf (base?.getD st.head).toList = false →
        stF.head = branch ∧
        lookupBranch stF.locals temp = none ∧
        ∃ T RW,
          lookupBranch stF.locals branch = some T ∧
          lookupBranch st.remote (base?.getD st.head) = some RW ∧
          r.diff = decide (0 < aheadCount RW T) ∧
          r.action = (if r.diff then "created" else "none")) := by
  constructor
  · intro branch st st' e h
    show (match fetchTrackingBranch branch st with
          | (Except.error _, s) => (Except.ok false, s)
          | (Except.ok _, s) => (Except.ok true, s)) = (Except.ok false, st')
    rw [h]
  · intro cm base? branch temp st stF r RB hrun hbroken hpresent hbl hbt hbw hbB htw
      htB hbo hBo
    obtain ⟨stM, T, RW, hfin, hMh, hMT, hRWr, hRWl, hMbr, hMr, hMb, hMt⟩ :=
      stepsABC_ok hrun hbt hbw hbB htw htB hbl
    have hfetch : stM.broken.contains branch = true ∨
        lookupBranch stM.remote branch = none := by
      left
      rw [hMb]
      exact hbroken
    rw [caseOne_eq hfetch hMbr hMh hMT hRWl hbo hBo hbt (Ne.symm hbB)] at hfin
    obtain ⟨hre, hsF⟩ := ok_pair_inj hfin
    subst hre
    subst hsF
    refine ⟨rfl, lookupBranch_removeBranch_self _ _, T, RW, ?_, hRWr, rfl, rfl⟩
    rw [lookupBranch_removeBranch_ne _ _ _ hbt, lookupBranch_setBranch_self]

/-- Witness for claim C10: on W10S the remote has a "pr" branch but its fetch
is broken; fetch_successful swallows the error and the engine run takes
Case 1, ending with HEAD on "pr" and the temp branch deleted. -/
theorem claim_C10_witness :
    fetch_successful "pr" W10S = (Except.ok false, W10S) ∧
    ((create_or_update_branch "msg" none "pr" "tmpb" W10S).2.head = "pr" ∧
     lookupBranch (create_or_update_branch "msg" none "pr" "tmpb" W10S).2.locals
       "tmpb" = none) := by
  constructor
  · exact claim_C10.1 "pr" W10S W10S
      ⟨"fatal: unable to access the remote repository"⟩ (by decide)
  · have hfst : (create_or_update_branch "msg" none "pr" "tmpb" W10S).1 =
        Except.ok ⟨"created", true, "master"⟩ := by decide
    have h : create_or_update_branch "msg" none "pr" "tmpb" W10S =
        (Except.ok ⟨"created", true, "master"⟩,
         (create_or_update_branch "msg" none "pr" "tmpb" W10S).2) := by
      rw [← hfst]
    have hmain := claim_C10.2 "msg" none "pr" "tmpb" W10S _ _ [cInit] h (by decide)
      (by decide) (by decide) (by decide) (by decide) (by decide) (by decide)
      (by decide) (by decide) (by decide)
    exact ⟨hmain.1, hmain.2.1⟩

end CPR